import Mathlib

/-!
Project requests and the authorization cache of kube-projects.

A shallow embedding of

* `pkg/project/registry/projectrequest/storage.go` (`REST.Create`, `REST.waitForAccess`),
* `pkg/project/auth/cache_test.go` (`mockReviewer.Review`, `TestSyncNamespace`),

together with a model of the authorization cache that the test drives.  The
cache implementation itself is not among the sources; its model follows the
written specification and is marked as such.

Conventions.  Calls on the privileged client are state passing: every call takes
the state of the API server and returns the next state with the response.  A Go
`(value, error)` result is an `Except`.  A Go slice is an `Option (List _)`, where
`none` is the nil slice and `some []` the empty slice that is not nil.
-/

namespace KubeProjects

/-! ## Kubernetes types (the fields the repository touches) -/

/-- Go errors built by the repository: `errors.New` and `fmt.Errorf` values,
`kapierror.NewAlreadyExists` and `kapierror.NewInternalError`. -/
inductive GoError where
  | errorString (msg : String)
  | alreadyExists (group : String) (resource : String) (name : String)
  | internalError (cause : GoError)
deriving DecidableEq, Repr

deriving instance DecidableEq for Except

/-- Type `rbac.Subject`. -/
structure Subject where
  Kind : String
  Name : String
deriving DecidableEq, Repr

namespace rbac

/-- Constant `rbac.UserKind`. -/
def UserKind : String := "User"

/-- Constant `rbac.GroupKind`. -/
def GroupKind : String := "Group"

/-- Type `rbac.RoleRef`. -/
structure RoleRef where
  Kind : String
  Name : String
deriving DecidableEq, Repr

/-- Type `rbac.RoleBinding`. -/
structure RoleBinding where
  Name : String
  Namespace : String
  Subjects : List Subject
  RoleRef : RoleRef
deriving DecidableEq, Repr

end rbac

namespace user

/-- Type `user.DefaultInfo`, read through `GetName` and `GetGroups`. -/
structure DefaultInfo where
  Name : String
  UID : String
  Groups : List String
deriving DecidableEq, Repr

end user

namespace kapi

/-- Constant `kapi.GroupName`, the core API group. -/
def GroupName : String := ""

/-- Type `kapi.Namespace`: `ObjectMeta.Name`, `ObjectMeta.ResourceVersion` and
`ObjectMeta.Annotations` (a map literal, kept in the order it is written). -/
structure Namespace where
  Name : String
  ResourceVersion : String
  Annotations : List (String × String)
deriving DecidableEq, Repr

/-- Type `kapi.Context`, read through `kapi.UserFrom`. -/
structure Context where
  user : Option user.DefaultInfo
deriving DecidableEq, Repr

/-- Function `kapi.UserFrom`: the user of the context and whether there is one. -/
def UserFrom (ctx : Context) : Option user.DefaultInfo := ctx.user

end kapi

namespace authorizationapi

/-- Type `authorizationapi.ResourceAttributes`. -/
structure ResourceAttributes where
  Namespace : String
  Verb : String
  Group : String
  Resource : String
  Name : String
deriving DecidableEq, Repr

/-- Type `authorizationapi.SubjectAccessReviewSpec`. -/
structure SubjectAccessReviewSpec where
  ResourceAttributes : ResourceAttributes
  User : String
deriving DecidableEq, Repr

/-- Type `authorizationapi.SubjectAccessReviewStatus`. -/
structure SubjectAccessReviewStatus where
  Allowed : Bool
deriving DecidableEq, Repr

/-- Type `authorizationapi.SubjectAccessReview`. -/
structure SubjectAccessReview where
  Spec : SubjectAccessReviewSpec
  Status : SubjectAccessReviewStatus
deriving DecidableEq, Repr

end authorizationapi

namespace projectapi

/-- Type `projectapi.ProjectRequest`: `ObjectMeta.Name`, `DisplayName`, `Description`. -/
structure ProjectRequest where
  Name : String
  DisplayName : String
  Description : String
deriving DecidableEq, Repr

end projectapi

/-- The parts of packages `projectapi`, `projectutil` and of the create strategy
that `storage.go` uses and that are not among the sources, taken as parameters:
the constants `projectapi.GroupName`, `projectapi.ProjectDescription`,
`projectapi.ProjectDisplayName`, `projectapi.ProjectRequester`, the function
`projectutil.ConvertNamespace`, and `rest.BeforeCreate(Strategy, ctx, obj)`, which
works on the object in place and so yields the object as it leaves the call
and the error. -/
structure ProjectPackage (Project : Type) where
  GroupName : String
  ProjectDescription : String
  ProjectDisplayName : String
  ProjectRequester : String
  ConvertNamespace : kapi.Namespace → Project
  BeforeCreate : kapi.Context → projectapi.ProjectRequest → projectapi.ProjectRequest × Option GoError

/-- Function `projectapi.Resource`: the group resource of a resource name, as the
pair (group, resource). -/
def ProjectPackage.Resource {Project : Type} (api : ProjectPackage Project) (resource : String) :
    String × String :=
  (api.GroupName, resource)

/-- Function `kapierror.NewAlreadyExists`. -/
def NewAlreadyExists (qualifiedResource : String × String) (name : String) : GoError :=
  GoError.alreadyExists qualifiedResource.1 qualifiedResource.2 name

/-- Function `kapierror.NewInternalError`. -/
def NewInternalError (err : GoError) : GoError :=
  GoError.internalError err

/-! ## The privileged client -/

/-- The four calls `storage.go` makes on `internalclientset.Interface`, over an
API server state `σ`:
`Core().Namespaces().Get`, `Core().Namespaces().Create`,
`Rbac().RoleBindings(ns).Create` and `Authorization().SubjectAccessReviews().Create`. -/
structure KubeClient (σ : Type) where
  NamespacesGet : σ → String → σ × Except GoError kapi.Namespace
  NamespacesCreate : σ → kapi.Namespace → σ × Except GoError kapi.Namespace
  RoleBindingsCreate : σ → String → rbac.RoleBinding → σ × Except GoError rbac.RoleBinding
  SubjectAccessReviewsCreate :
    σ → authorizationapi.SubjectAccessReview → σ × Except GoError authorizationapi.SubjectAccessReview

/-- A call on the privileged client. -/
inductive Action where
  | NamespacesGet (name : String)
  | NamespacesCreate (ns : kapi.Namespace)
  | RoleBindingsCreate (ns : String) (binding : rbac.RoleBinding)
  | SubjectAccessReviewsCreate (sar : authorizationapi.SubjectAccessReview)
deriving DecidableEq, Repr

/-- A call on the privileged client together with the response it got. -/
inductive Event where
  | NamespacesGet (name : String) (resp : Except GoError kapi.Namespace)
  | NamespacesCreate (ns : kapi.Namespace) (resp : Except GoError kapi.Namespace)
  | RoleBindingsCreate (ns : String) (binding : rbac.RoleBinding)
      (resp : Except GoError rbac.RoleBinding)
  | SubjectAccessReviewsCreate (sar : authorizationapi.SubjectAccessReview)
      (resp : Except GoError authorizationapi.SubjectAccessReview)
deriving DecidableEq

/-- The call of an event. -/
def Event.action : Event → Action
  | .NamespacesGet name _ => .NamespacesGet name
  | .NamespacesCreate ns _ => .NamespacesCreate ns
  | .RoleBindingsCreate ns binding _ => .RoleBindingsCreate ns binding
  | .SubjectAccessReviewsCreate sar _ => .SubjectAccessReviewsCreate sar

/-- Whether a call creates a namespace or a role binding. -/
def Action.createsObject : Action → Bool
  | .NamespacesCreate _ => true
  | .RoleBindingsCreate _ _ => true
  | _ => false

/-- Whether an event is a subject access review that came back allowed. -/
def Event.allowed : Event → Bool
  | .SubjectAccessReviewsCreate _ (.ok result) => result.Status.Allowed
  | _ => false

/-- A client that behaves as `c` and keeps the log of the calls made on it, the
way a fake clientset records its actions. -/
def recording {σ : Type} (c : KubeClient σ) : KubeClient (σ × List Event) where
  NamespacesGet := fun st name =>
    let r := c.NamespacesGet st.1 name
    ((r.1, st.2 ++ [Event.NamespacesGet name r.2]), r.2)
  NamespacesCreate := fun st ns =>
    let r := c.NamespacesCreate st.1 ns
    ((r.1, st.2 ++ [Event.NamespacesCreate ns r.2]), r.2)
  RoleBindingsCreate := fun st ns binding =>
    let r := c.RoleBindingsCreate st.1 ns binding
    ((r.1, st.2 ++ [Event.RoleBindingsCreate ns binding r.2]), r.2)
  SubjectAccessReviewsCreate := fun st sar =>
    let r := c.SubjectAccessReviewsCreate st.1 sar
    ((r.1, st.2 ++ [Event.SubjectAccessReviewsCreate sar r.2]), r.2)

/-! ## `wait.ExponentialBackoff` and `retry.DefaultBackoff` -/

namespace wait

/-- Type `wait.Backoff`.  `Duration` is in nanoseconds, `Factor` and `Jitter` are
kept as the ratios of naturals (numerator, denominator); they set how long the
loop sleeps between two attempts and nothing else. -/
structure Backoff where
  Duration : Nat
  Factor : Nat × Nat
  Jitter : Nat × Nat
  Steps : Nat
deriving DecidableEq, Repr

/-- Variable `wait.ErrWaitTimeout`. -/
def ErrWaitTimeout : GoError := GoError.errorString "timed out waiting for the condition"

/-- The loop of `wait.ExponentialBackoff` with `steps` attempts left: call the
condition; return its error when it has one or when it reports true; go on
otherwise; `ErrWaitTimeout` when no attempt is left. -/
def backoffLoop {σ : Type} (condition : σ → σ × (Bool × Option GoError)) :
    Nat → σ → σ × Option GoError
  | 0, s => (s, some ErrWaitTimeout)
  | n + 1, s =>
    match condition s with
    | (s1, (ok, err)) =>
      if err.isSome || ok then (s1, err) else backoffLoop condition n s1

/-- Function `wait.ExponentialBackoff` of the Kubernetes library: for each of the
`Steps` attempts, sleep (but before the first), then call the condition and
return its error when it has one or when it reports true; `ErrWaitTimeout`
after the last attempt.  The sleeping is not modelled. -/
def ExponentialBackoff {σ : Type} (backoff : Backoff)
    (condition : σ → σ × (Bool × Option GoError)) (s : σ) : σ × Option GoError :=
  backoffLoop condition backoff.Steps s

end wait

namespace retry

/-- Variable `retry.DefaultBackoff`: 4 steps, 10ms, factor 5.0, jitter 0.1. -/
def DefaultBackoff : wait.Backoff :=
  { Duration := 10000000, Factor := (5, 1), Jitter := (1, 10), Steps := 4 }

end retry

/-! ## `storage.go` -/

/-- The review `waitForAccess` sends: verb `get` on the namespace, by the user. -/
def accessReview (ns username : String) : authorizationapi.SubjectAccessReview :=
  { Spec :=
      { ResourceAttributes :=
          { Namespace := ns
            Verb := "get"
            Group := kapi.GroupName
            Resource := "namespaces"
            Name := ns }
        User := username }
    Status := { Allowed := false } }

/-- The condition closure of `waitForAccess`: create the review; `(false, err)`
on an error, `(result.Status.Allowed, nil)` otherwise. -/
def accessCondition {σ : Type} (client : KubeClient σ)
    (sar : authorizationapi.SubjectAccessReview) (st : σ) : σ × (Bool × Option GoError) :=
  match client.SubjectAccessReviewsCreate st sar with
  | (st1, .error err) => (st1, (false, some err))
  | (st1, .ok result) => (st1, (result.Status.Allowed, none))

/-- Method `REST.waitForAccess`.  It returns nothing; the error of the backoff is
only logged. -/
def waitForAccess {σ : Type} (client : KubeClient σ) (s : σ) (ns username : String) : σ :=
  let sar := accessReview ns username
  let backoff : wait.Backoff := { retry.DefaultBackoff with Steps := 6 }
  let r := wait.ExponentialBackoff backoff (accessCondition client sar) s
  r.1

/-- Method `REST.Create`.  The object is a `*projectapi.ProjectRequest`, which is
what the type assertion of the source asks for; `utilruntime.HandleError` only
logs. -/
def Create {σ Project : Type} (api : ProjectPackage Project) (client : KubeClient σ) (s : σ)
    (ctx : kapi.Context) (obj : projectapi.ProjectRequest) : σ × Except GoError Project :=
  match kapi.UserFrom ctx with
  | none => (s, .error (GoError.errorString "a user must be provided"))
  | some userInfo =>
    match api.BeforeCreate ctx obj with
    | (_, some err) => (s, .error err)
    | (projectRequest, none) =>
      match client.NamespacesGet s projectRequest.Name with
      | (s1, .ok _) =>
        (s1, .error (NewAlreadyExists (api.Resource "project") projectRequest.Name))
      | (s1, .error _) =>
        let ns := projectRequest.Name
        let username := userInfo.Name
        let namespace1 : kapi.Namespace :=
          { Name := ns
            ResourceVersion := ""
            Annotations :=
              [ (api.ProjectDescription, projectRequest.Description),
                (api.ProjectDisplayName, projectRequest.DisplayName),
                (api.ProjectRequester, username) ] }
        match client.NamespacesCreate s1 namespace1 with
        | (s2, .error err) => (s2, .error (NewInternalError err))
        | (s2, .ok resultingNamespace) =>
          let binding : rbac.RoleBinding :=
            { Name := "admin"
              Namespace := ns
              Subjects := [{ Kind := rbac.UserKind, Name := username }]
              RoleRef := { Kind := "ClusterRole", Name := "admin" } }
          match client.RoleBindingsCreate s2 ns binding with
          | (s3, .error err) => (s3, .error (NewInternalError err))
          | (s3, .ok _) =>
            let binding2 : rbac.RoleBinding :=
              { binding with
                Name := api.GroupName ++ ":admin"
                RoleRef := { binding.RoleRef with Name := api.GroupName ++ ":admin" } }
            match client.RoleBindingsCreate s3 ns binding2 with
            | (s4, .error err) => (s4, .error (NewInternalError err))
            | (s4, .ok _) =>
              let s5 := waitForAccess client s4 ns username
              (s5, .ok (api.ConvertNamespace resultingNamespace))

/-! ## `cache_test.go`: the common test users -/
/-- Test user `alice`. -/
def alice : user.DefaultInfo := { Name := "Alice", UID := "alice-uid", Groups := [] }

/-- Test user `bob`. -/
def bob : user.DefaultInfo := { Name := "Bob", UID := "bob-uid", Groups := ["employee"] }

/-- Test user `eve`. -/
def eve : user.DefaultInfo := { Name := "Eve", UID := "eve-uid", Groups := ["employee"] }

/-- Test user `frank`. -/
def frank : user.DefaultInfo := { Name := "Frank", UID := "frank-uid", Groups := [] }

/-! ## Objects and clients for the statements about `storage.go` -/

/-- The namespace `Create` is expected to ask for: named after the request, with
the description, the display name and the requester as annotations. -/
def requestedNamespace {Project : Type} (api : ProjectPackage Project)
    (projectRequest : projectapi.ProjectRequest) (username : String) : kapi.Namespace :=
  { Name := projectRequest.Name
    ResourceVersion := ""
    Annotations :=
      [ (api.ProjectDescription, projectRequest.Description),
        (api.ProjectDisplayName, projectRequest.DisplayName),
        (api.ProjectRequester, username) ] }

/-- The role binding `Create` is expected to ask for: the given name, in the
namespace, with the user as its single subject and the cluster role of the same
name as its role. -/
def requestedBinding (name ns username : String) : rbac.RoleBinding :=
  { Name := name
    Namespace := ns
    Subjects := [{ Kind := "User", Name := username }]
    RoleRef := { Kind := "ClusterRole", Name := name } }

/-- A client for examples, over the answers the subject access reviews are still
to get: no namespace is ever found, every namespace and role binding is created
as sent, and a review gets the next answer of the script (allowed or not, or an
error), and is not allowed once the script is used up. -/
def scriptedClient : KubeClient (List (Except GoError Bool)) where
  NamespacesGet := fun st name =>
    (st, .error (GoError.errorString ("namespaces " ++ name ++ " not found")))
  NamespacesCreate := fun st ns => (st, .ok { ns with ResourceVersion := "1" })
  RoleBindingsCreate := fun st _ binding => (st, .ok binding)
  SubjectAccessReviewsCreate := fun st sar =>
    match st with
    | [] => ([], .ok { sar with Status := { Allowed := false } })
    | .ok allowed :: rest => (rest, .ok { sar with Status := { Allowed := allowed } })
    | .error err :: rest => (rest, .error err)

/-- A project package for examples: the project of a namespace is the namespace,
and every request passes `BeforeCreate` unchanged. -/
def examplePackage : ProjectPackage kapi.Namespace where
  GroupName := "project.openshift.io"
  ProjectDescription := "openshift.io/description"
  ProjectDisplayName := "openshift.io/display-name"
  ProjectRequester := "openshift.io/requester"
  ConvertNamespace := fun ns => ns
  BeforeCreate := fun _ obj => (obj, none)

/-- A request for examples. -/
def exampleRequest : projectapi.ProjectRequest :=
  { Name := "demo", DisplayName := "Demo", Description := "a demo project" }

/-- A context for examples, carrying the user Alice. -/
def exampleContext : kapi.Context := { user := some alice }

/-! ## `cache_test.go`: the mock reviewer -/

/-- A Go `map[string][]rbac.Subject`, as the list of its entries. -/
abbrev SubjectMap := List (String × Option (List Subject))

/-- The entry of a key in a Go map, if the map has one. -/
def SubjectMap.entry (m : SubjectMap) (name : String) : Option (Option (List Subject)) :=
  match m.find? (fun kv => decide (kv.1 = name)) with
  | some kv => some kv.2
  | none => none

/-- Go map indexing `m[name]`: the value of the entry, and the zero value, which
is the nil slice, when the map has no entry. -/
def SubjectMap.index (m : SubjectMap) (name : String) : Option (List Subject) :=
  match m.entry name with
  | some v => v
  | none => none

/-- Go map assignment `m[name] = v`. -/
def SubjectMap.assign : SubjectMap → String → Option (List Subject) → SubjectMap
  | [], name, v => [(name, v)]
  | kv :: rest, name, v =>
    if kv.1 = name then (name, v) :: rest else kv :: SubjectMap.assign rest name v

/-- Type `mockReviewer`. -/
structure mockReviewer where
  expectedResults : SubjectMap

/-- Method `mockReviewer.Review`. -/
def mockReviewer.Review (mr : mockReviewer) (name : String) :
    Except GoError (Option (List Subject)) :=
  let review := mr.expectedResults.index name
  if review = none then
    .error (GoError.errorString ("Item " ++ name ++ " does not exist"))
  else
    .ok review

/-! ## The authorization cache -/

/-- Modelled from the spec: the Reviewer boundary of §6, the signature of
`mockReviewer.Review`; the interface declaration is not among the sources. -/
abbrev Reviewer := String → Except GoError (Option (List Subject))

/-- Modelled from the spec: the skip strategy of §4.3 with its two variants.
`neverSkipSynchronizer` is the always-run one, which the test installs; the
change-aware one keeps the fingerprint of the last pass it let through.  The
strategy types are not among the sources. -/
inductive SkipSynchronizer where
  | neverSkipSynchronizer
  | changeAware (baseline : Option Nat)
deriving DecidableEq, Repr

/-- Modelled from the spec: the predicate of §4.3, evaluated once per pass on the
current fingerprint: whether to skip, and the strategy with its next state. -/
def SkipSynchronizer.SkipSynchronize : SkipSynchronizer → Nat → Bool × SkipSynchronizer
  | .neverSkipSynchronizer, _ => (false, .neverSkipSynchronizer)
  | .changeAware baseline, fingerprint =>
    if baseline = some fingerprint then (true, .changeAware baseline)
    else (false, .changeAware (some fingerprint))

/-- Modelled from the spec: the resource record of §3 with the forward index
entry of its resource: identifier, last observed and last reviewed version
token, and the subjects the last review granted.  The cache types are not among
the sources. -/
structure ResourceRecord where
  Name : String
  lastObserved : String
  lastReviewed : Option String
  subjects : List Subject
deriving DecidableEq, Repr

/-- Modelled from the spec: the published snapshot of §3, the forward index (the
records) and the reverse index from subjects to resource identifiers, with the
injected skip strategy.  The cache type is not among the sources. -/
structure AuthorizationCache where
  skip : SkipSynchronizer
  records : List ResourceRecord
  reverse : List (Subject × List String)
deriving DecidableEq, Repr

/-- Modelled from the spec: what a pass reads (§6): the resource source, whose
`namespaces` are what the namespace lister lists; the signal that a cluster
scoped policy object changed since the last pass; the fingerprint the
change-aware skip strategy compares.  The informers are not among the sources. -/
structure ClusterState where
  namespaces : List kapi.Namespace
  policyChanged : Bool
  fingerprint : Nat
deriving DecidableEq, Repr

/-- Modelled from the spec: `namespaceLister.Add` of the test, the store of the
resource source keyed by name: replace the namespace of that name or append.
The store is not among the sources. -/
def namespaceListerAdd : List kapi.Namespace → kapi.Namespace → List kapi.Namespace
  | [], ns => [ns]
  | x :: rest, ns => if x.Name = ns.Name then ns :: rest else x :: namespaceListerAdd rest ns

/-- Modelled from the spec: a cache just built (§3 lifecycle: no state at start);
`NewAuthorizationCache` is not among the sources. -/
def NewAuthorizationCache : AuthorizationCache :=
  { skip := .changeAware none, records := [], reverse := [] }

/-- Modelled from the spec: the record of a resource in the forward index. -/
def findRecord (records : List ResourceRecord) (name : String) : Option ResourceRecord :=
  records.find? (fun r => decide (r.Name = name))

/-- Modelled from the spec: put a record in the forward index, in place of the
record of the same resource (§3: the previous value for that resource is the
only data invalidated per update). -/
def setRecord : List ResourceRecord → ResourceRecord → List ResourceRecord
  | [], r => [r]
  | x :: rest, r => if x.Name = r.Name then r :: rest else x :: setRecord rest r

/-- The subjects of a successful review; a nil slice has none. -/
def reviewSubjects (review : Option (List Subject)) : List Subject :=
  match review with
  | some subjects => subjects
  | none => []

/-- Modelled from the spec: the record of a resource once the snapshot is read
(§3 lifecycle): created on first observation, with no review yet and no
subjects; and with the observed version token noted on the known record. -/
def observeResource (known : Option ResourceRecord) (ns : kapi.Namespace) : ResourceRecord :=
  match known with
  | some r => { r with lastObserved := ns.ResourceVersion }
  | none =>
    { Name := ns.Name, lastObserved := ns.ResourceVersion, lastReviewed := none, subjects := [] }

/-- Modelled from the spec: step 4 of §4.1 for one resource of the snapshot, on
the forward index and the log of the Review calls made so far.  The record is
created on first observation; the resource is reviewed when the cluster-wide
invalidation is in effect, when it is newly observed, or when its observed
version differs from its last reviewed one; a successful review replaces the
subjects and records the version, a failed one leaves both. -/
def reviewResource (reviewer : Reviewer) (invalidateAll : Bool)
    (st : List ResourceRecord × List String) (ns : kapi.Namespace) :
    List ResourceRecord × List String :=
  let known := findRecord st.1 ns.Name
  let observed := observeResource known ns
  if invalidateAll || known.isNone || decide (observed.lastReviewed ≠ some ns.ResourceVersion) then
    match reviewer ns.Name with
    | .ok review =>
      (setRecord st.1
        { observed with
          lastReviewed := some ns.ResourceVersion
          subjects := reviewSubjects review },
        st.2 ++ [ns.Name])
    | .error _ => (setRecord st.1 observed, st.2 ++ [ns.Name])
  else
    (setRecord st.1 observed, st.2)

/-- Modelled from the spec: add a resource to the set of a subject in the
reverse index (step 6 of §4.1). -/
def addResource : List (Subject × List String) → Subject → String → List (Subject × List String)
  | [], s, name => [(s, [name])]
  | kv :: rest, s, name =>
    if kv.1 = s then (kv.1, if name ∈ kv.2 then kv.2 else kv.2 ++ [name]) :: rest
    else kv :: addResource rest s name

/-- Modelled from the spec: step 6 of §4.1, the reverse index of a forward index:
for each resource, for each subject of its subject set, add the resource to the
set of that subject; group subjects are recorded as user subjects are. -/
def buildReverse (records : List ResourceRecord) : List (Subject × List String) :=
  records.foldl
    (fun idx r => r.subjects.foldl (fun idx1 s => addResource idx1 s r.Name) idx) []

/-- Modelled from the spec: the resources of a subject in the reverse index. -/
def lookupSubject (idx : List (Subject × List String)) (s : Subject) : List String :=
  match idx.find? (fun kv => decide (kv.1 = s)) with
  | some kv => kv.2
  | none => []

/-- Modelled from the spec: `synchronize()` of §4.1, with the log of the names
`Reviewer.Review` was called with.  Step 1 asks the skip strategy; step 2 takes
the snapshot; step 3 reads the policy signal; step 4 reviews; step 5 drops the
resources that left the source; step 6 rebuilds the reverse index; step 7
publishes both indexes at once.  The cache implementation is not among the
sources. -/
def synchronize (reviewer : Reviewer) (cluster : ClusterState) (c : AuthorizationCache) :
    AuthorizationCache × List String :=
  match c.skip.SkipSynchronize cluster.fingerprint with
  | (true, skip1) => ({ c with skip := skip1 }, [])
  | (false, skip1) =>
    let snapshot := cluster.namespaces
    let invalidateAll := cluster.policyChanged
    let reviewed := snapshot.foldl (reviewResource reviewer invalidateAll) (c.records, [])
    let forward :=
      reviewed.1.filter (fun r => snapshot.any (fun ns => decide (ns.Name = r.Name)))
    let reverse := buildReverse forward
    ({ skip := skip1, records := forward, reverse := reverse }, reviewed.2)

/-- Modelled from the spec: `List` of §4.2, the query surface: the resources of
the user subject, and of the group subject of each group of the user, without
duplicates; the error is always nil.  The cache implementation is not among the
sources. -/
def AuthorizationCache.List (c : AuthorizationCache) (u : user.DefaultInfo) :
    Except GoError (List String) :=
  let direct := lookupSubject c.reverse { Kind := rbac.UserKind, Name := u.Name }
  let viaGroups :=
    u.Groups.flatMap (fun g => lookupSubject c.reverse { Kind := rbac.GroupKind, Name := g })
  .ok (direct ++ viaGroups).dedup

/-- Whether a subject grants to a user: it is the user subject of the user name, or
the group subject of one of the groups of the user. -/
def grantsTo (u : user.DefaultInfo) (s : Subject) : Prop :=
  s = { Kind := rbac.UserKind, Name := u.Name } ∨
    ∃ g ∈ u.Groups, s = { Kind := rbac.GroupKind, Name := g }

/-- The cache states that can be published: the new cache, a cache with another
skip strategy installed, and the cache after a pass. -/
inductive Published : AuthorizationCache → Prop where
  | new : Published NewAuthorizationCache
  | setSkip (c : AuthorizationCache) (skip : SkipSynchronizer) :
      Published c → Published { c with skip := skip }
  | pass (reviewer : Reviewer) (cluster : ClusterState) (c : AuthorizationCache) :
      Published c → Published (synchronize reviewer cluster c).1

/-! ## `TestSyncNamespace` -/

/-- The namespaces of the test. -/
def namespaceList : List kapi.Namespace :=
  [ { Name := "foo", ResourceVersion := "1", Annotations := [] },
    { Name := "bar", ResourceVersion := "2", Annotations := [] },
    { Name := "car", ResourceVersion := "3", Annotations := [] } ]

/-- The reviewer of the test before the access rules are modified. -/
def reviewer1 : mockReviewer :=
  { expectedResults :=
      [ ("foo", some
          [ { Kind := rbac.UserKind, Name := alice.Name },
            { Kind := rbac.UserKind, Name := bob.Name },
            { Kind := rbac.GroupKind, Name := "employee" } ]),
        ("bar", some
          [ { Kind := rbac.UserKind, Name := frank.Name },
            { Kind := rbac.UserKind, Name := eve.Name },
            { Kind := rbac.GroupKind, Name := "random" } ]),
        ("car", some []) ] }

/-- The reviewer of the test after the three assignments that modify the access
rules. -/
def reviewer2 : mockReviewer :=
  { expectedResults :=
      ((reviewer1.expectedResults.assign "foo" (some
          [ { Kind := rbac.UserKind, Name := bob.Name },
            { Kind := rbac.GroupKind, Name := "random" } ])).assign "bar" (some
          [ { Kind := rbac.UserKind, Name := alice.Name },
            { Kind := rbac.UserKind, Name := eve.Name },
            { Kind := rbac.GroupKind, Name := "employee" } ])).assign "car" (some
          [ { Kind := rbac.UserKind, Name := bob.Name },
            { Kind := rbac.UserKind, Name := eve.Name },
            { Kind := rbac.GroupKind, Name := "employee" } ]) }

/-- The cache of the test: a new cache with the never-skipping strategy. -/
def testCache0 : AuthorizationCache :=
  { NewAuthorizationCache with skip := .neverSkipSynchronizer }

/-- The cluster of the test once the lister is primed with the namespaces; the
informers of the policy objects are empty and never change. -/
def testCluster1 : ClusterState :=
  { namespaces := namespaceList.foldl namespaceListerAdd []
    policyChanged := false
    fingerprint := 0 }

/-- Function `strconv.Atoi` of the Go library, for a 64 bit `int`: an optional
sign, then decimal digits and at least one; the value with no error; zero with
a syntax error for any other string; the nearest bound with a range error when
the value does not fit.  The message quotes the string as it is. -/
def Atoi (s : String) : Int × Option GoError :=
  let signed : Bool × List Char :=
    match s.data with
    | '-' :: rest => (true, rest)
    | '+' :: rest => (false, rest)
    | cs => (false, cs)
  if signed.2.isEmpty || !signed.2.all Char.isDigit then
    (0, some (GoError.errorString
      ("strconv.Atoi: parsing \"" ++ s ++ "\": invalid syntax")))
  else
    let magnitude : Nat := signed.2.foldl (fun n c => 10 * n + (c.toNat - 48)) 0
    let value : Int := if signed.1 then - (magnitude : Int) else (magnitude : Int)
    if value > 9223372036854775807 then
      (9223372036854775807,
        some (GoError.errorString
          ("strconv.Atoi: parsing \"" ++ s ++ "\": value out of range")))
    else if value < -9223372036854775808 then
      (-9223372036854775808,
        some (GoError.errorString
          ("strconv.Atoi: parsing \"" ++ s ++ "\": value out of range")))
    else (value, none)

/-- Function `strconv.Itoa` of the Go library. -/
def Itoa (i : Int) : String :=
  if i < 0 then "-" ++ Nat.repr i.natAbs else Nat.repr i.natAbs

/-- The sum of two 64 bit `int` values in Go, which wraps around. -/
def addInt (a b : Int) : Int :=
  (a + b + 9223372036854775808) % 18446744073709551616 - 9223372036854775808

/-- The step of the test loop on one namespace: `strconv.Atoi` (an error is
reported through `t.Errorf` and the loop goes on with the value returned), add
one, `strconv.Itoa`. -/
def bumpResourceVersion (ns : kapi.Namespace) : kapi.Namespace :=
  let oldVersion := (Atoi ns.ResourceVersion).1
  let newVersion := Itoa (addInt oldVersion 1)
  { ns with ResourceVersion := newVersion }

/-- The cluster of the test after the resource version of each namespace is
incremented and the namespace added to the lister again. -/
def testCluster2 : ClusterState :=
  { namespaces := (namespaceList.map bumpResourceVersion).foldl namespaceListerAdd
      testCluster1.namespaces
    policyChanged := false
    fingerprint := 0 }

/-- The cache of the test after the first `synchronize()`. -/
def testCache1 : AuthorizationCache :=
  (synchronize reviewer1.Review testCluster1 testCache0).1

/-- The cache of the test after the second `synchronize()`. -/
def testCache2 : AuthorizationCache :=
  (synchronize reviewer2.Review testCluster2 testCache1).1

/-! ## The log of `waitForAccess` -/

/-- A review that came back without an error and not allowed. -/
def deniedReview (sar : authorizationapi.SubjectAccessReview) (e : Event) : Prop :=
  ∃ result, e = Event.SubjectAccessReviewsCreate sar (.ok result) ∧ result.Status.Allowed = false

/-- What the backoff loop with `n` attempts adds to the log: reviews that were
not allowed, then either nothing, all `n` attempts being used, or one last
review, within the `n` attempts, that came back allowed or with an error. -/
def probeLog (sar : authorizationapi.SubjectAccessReview) (n : Nat) (added : List Event) : Prop :=
  ∃ denied last, added = denied ++ last ∧ (∀ e ∈ denied, deniedReview sar e) ∧
    ((last = [] ∧ denied.length = n) ∨
      (denied.length < n ∧ ∃ resp, last = [Event.SubjectAccessReviewsCreate sar resp] ∧
        ∀ result, resp = .ok result → result.Status.Allowed = true))

instance grantsTo.instDecidable (u : user.DefaultInfo) (s : Subject) : Decidable (grantsTo u s) := by
  unfold grantsTo
  infer_instance

/-- The three reasons for which a pass reviews a namespace: a cluster-wide
policy object changed; the namespace is newly observed, the forward index
having no record of it; the observed resource version differs from the version
recorded at its last review. -/
def needsReview (policyChanged : Bool) (records : List ResourceRecord) (ns : kapi.Namespace) :
    Prop :=
  policyChanged = true ∨ findRecord records ns.Name = none ∨
    ∃ r, findRecord records ns.Name = some r ∧ r.lastReviewed ≠ some ns.ResourceVersion

/-- A reviewer of the test kind whose results no longer cover `foo`: `Review`
fails for it. -/
def lapsedReviewer : mockReviewer :=
  { expectedResults := [("bar", some []), ("car", some [])] }

/-- The subjects a namespace is expected to have after a pass that reviews it:
those of the result when the reviewer returns one; when the review fails, those
the forward index held before, none if it had no record. -/
def subjectsAfterPass (reviewer : Reviewer) (records : List ResourceRecord) (name : String) :
    List Subject :=
  match reviewer name with
  | .ok review => reviewSubjects review
  | .error _ =>
    match findRecord records name with
    | some r => r.subjects
    | none => []

/-! # Theorems -/

/-! ## `waitForAccess`: the log of the reviews -/

theorem backoffLoop_recording_log {σ : Type} (client : KubeClient σ)
    (sar : authorizationapi.SubjectAccessReview) :
    ∀ (n : Nat) (s : σ) (log : List Event), ∃ added,
      (wait.backoffLoop (accessCondition (recording client) sar) n (s, log)).1.2 = log ++ added ∧
        probeLog sar n added := by
  intro n
  induction n with
  | zero =>
    intro s log
    exact ⟨[], by simp [wait.backoffLoop], [], [], rfl, by simp, Or.inl ⟨rfl, rfl⟩⟩
  | succ n ih =>
    intro s log
    rcases hresp : client.SubjectAccessReviewsCreate s sar with ⟨s1, resp⟩
    cases resp with
    | error err =>
      refine ⟨[Event.SubjectAccessReviewsCreate sar (.error err)], ?_, [], _, rfl, by simp, ?_⟩
      · simp [wait.backoffLoop, accessCondition, recording, hresp]
      · exact Or.inr ⟨by simp, _, rfl, by intro result h; cases h⟩
    | ok result =>
      by_cases hallowed : result.Status.Allowed = true
      · refine ⟨[Event.SubjectAccessReviewsCreate sar (.ok result)], ?_, [], _, rfl, by simp, ?_⟩
        · simp [wait.backoffLoop, accessCondition, recording, hresp, hallowed]
        · refine Or.inr ⟨by simp, _, rfl, ?_⟩
          intro result1 h
          cases h
          exact hallowed
      · obtain ⟨added, hlog, denied, last, hsplit, hdenied, hlast⟩ :=
          ih s1 (log ++ [Event.SubjectAccessReviewsCreate sar (.ok result)])
        have hfalse : result.Status.Allowed = false := by simpa using hallowed
        refine ⟨Event.SubjectAccessReviewsCreate sar (.ok result) :: added, ?_,
          Event.SubjectAccessReviewsCreate sar (.ok result) :: denied, last, ?_, ?_, ?_⟩
        · simp [wait.backoffLoop, accessCondition, recording, hresp, hfalse]
          simpa [recording, accessCondition] using hlog
        · simp [hsplit]
        · intro e he
          rcases List.mem_cons.mp he with rfl | he
          · exact ⟨result, rfl, hfalse⟩
          · exact hdenied e he
        · rcases hlast with ⟨h1, h2⟩ | ⟨h1, h2⟩
          · exact Or.inl ⟨h1, by simp [h2]⟩
          · exact Or.inr ⟨by simpa using h1, h2⟩

theorem waitForAccess_recording_log {σ : Type} (client : KubeClient σ) (s : σ)
    (log : List Event) (ns username : String) :
    ∃ added, (waitForAccess (recording client) (s, log) ns username).2 = log ++ added ∧
      probeLog (accessReview ns username) 6 added := by
  obtain ⟨added, h1, h2⟩ := backoffLoop_recording_log client (accessReview ns username) 6 s log
  exact ⟨added, by simpa [waitForAccess, wait.ExponentialBackoff] using h1, h2⟩

theorem probeLog_actions (sar : authorizationapi.SubjectAccessReview) (n : Nat)
    (added : List Event) (h : probeLog sar n added) (hn : 0 < n) :
    ∃ k, 1 ≤ k ∧ k ≤ n ∧
      added.map Event.action = List.replicate k (Action.SubjectAccessReviewsCreate sar) := by
  obtain ⟨denied, last, hsplit, hdenied, hlast⟩ := h
  have hd : denied.map Event.action =
      List.replicate denied.length (Action.SubjectAccessReviewsCreate sar) := by
    apply List.eq_replicate_iff.mpr
    refine ⟨by simp, ?_⟩
    intro a ha
    obtain ⟨e, he, rfl⟩ := List.mem_map.mp ha
    obtain ⟨result, rfl, _⟩ := hdenied e he
    rfl
  rcases hlast with ⟨h1, h2⟩ | ⟨h1, resp, h2, _⟩
  · refine ⟨n, hn, le_refl n, ?_⟩
    subst h1
    simp [hsplit, hd, h2]
  · refine ⟨denied.length + 1, by omega, by omega, ?_⟩
    subst h2
    simp [hsplit, hd, Event.action, List.replicate_succ', List.replicate_add]

/-! ## `Create` -/

/-- C6.  The outcome of `waitForAccess` never changes the result of `Create`:
when the context carries a user, the request passes `BeforeCreate`, the
namespace lookup fails and the namespace creation and both role binding
creations succeed, `Create` returns the conversion of the created namespace and
no error, whatever the client answers to the subject access reviews (the
answers of the client to them are not constrained). -/
theorem Create_result_regardless_of_waitForAccess {σ Project : Type}
    (api : ProjectPackage Project) (client : KubeClient σ) (s s1 s2 s3 s4 : σ)
    (ctx : kapi.Context) (obj projectRequest : projectapi.ProjectRequest)
    (userInfo : user.DefaultInfo) (lookupErr : GoError) (resultingNamespace : kapi.Namespace)
    (created1 created2 : rbac.RoleBinding)
    (huser : kapi.UserFrom ctx = some userInfo)
    (hvalid : api.BeforeCreate ctx obj = (projectRequest, none))
    (hget : client.NamespacesGet s projectRequest.Name = (s1, .error lookupErr))
    (hns : client.NamespacesCreate s1 (requestedNamespace api projectRequest userInfo.Name) =
      (s2, .ok resultingNamespace))
    (hrb1 : client.RoleBindingsCreate s2 projectRequest.Name
      (requestedBinding "admin" projectRequest.Name userInfo.Name) = (s3, .ok created1))
    (hrb2 : client.RoleBindingsCreate s3 projectRequest.Name
      (requestedBinding (api.GroupName ++ ":admin") projectRequest.Name userInfo.Name) =
        (s4, .ok created2)) :
    (Create api client s ctx obj).2 = .ok (api.ConvertNamespace resultingNamespace) := by
  simp only [requestedNamespace, requestedBinding] at hns hrb1 hrb2
  simp [Create, huser, hvalid, hget, hns, hrb1, hrb2, rbac.UserKind]

/-- Witness of C6 on the example client, for the three outcomes of the reviews:
allowed at the second review, never allowed within the six attempts, and an
error. -/
theorem Create_result_regardless_of_waitForAccess_witness :
    (Create examplePackage scriptedClient [.ok false, .ok true] exampleContext exampleRequest).2 =
        .ok { requestedNamespace examplePackage exampleRequest "Alice" with
              ResourceVersion := "1" } ∧
      (Create examplePackage scriptedClient [] exampleContext exampleRequest).2 =
        .ok { requestedNamespace examplePackage exampleRequest "Alice" with
              ResourceVersion := "1" } ∧
      (Create examplePackage scriptedClient [.error (GoError.errorString "unavailable")]
          exampleContext exampleRequest).2 =
        .ok { requestedNamespace examplePackage exampleRequest "Alice" with
              ResourceVersion := "1" } :=
  ⟨Create_result_regardless_of_waitForAccess examplePackage scriptedClient _ _ _ _ _
      exampleContext exampleRequest exampleRequest alice _ _ _ _ rfl rfl rfl rfl rfl rfl,
    Create_result_regardless_of_waitForAccess examplePackage scriptedClient _ _ _ _ _
      exampleContext exampleRequest exampleRequest alice _ _ _ _ rfl rfl rfl rfl rfl rfl,
    Create_result_regardless_of_waitForAccess examplePackage scriptedClient _ _ _ _ _
      exampleContext exampleRequest exampleRequest alice _ _ _ _ rfl rfl rfl rfl rfl rfl⟩

/-- C8.  When the context carries the user, the request passes `BeforeCreate`,
the namespace lookup fails and the three creations succeed, the calls `Create`
makes on the client are, in this order: the lookup of the namespace of the
request; the creation of the namespace named after the request, annotated with
the description, the display name and the requester; the creation, in that
namespace, of the role binding `admin`; the creation, in that namespace, of the
role binding `GroupName + ":admin"`, each binding with the user as its single
subject and the cluster role of its own name; then between one and six subject
access reviews.  So the calls that create a namespace or a role binding are
exactly those three, in that order. -/
theorem Create_issues_namespace_then_two_bindings {σ Project : Type}
    (api : ProjectPackage Project) (client : KubeClient σ) (s s1 s2 s3 s4 : σ)
    (ctx : kapi.Context) (obj projectRequest : projectapi.ProjectRequest)
    (userInfo : user.DefaultInfo) (lookupErr : GoError) (resultingNamespace : kapi.Namespace)
    (created1 created2 : rbac.RoleBinding)
    (huser : kapi.UserFrom ctx = some userInfo)
    (hvalid : api.BeforeCreate ctx obj = (projectRequest, none))
    (hget : client.NamespacesGet s projectRequest.Name = (s1, .error lookupErr))
    (hns : client.NamespacesCreate s1 (requestedNamespace api projectRequest userInfo.Name) =
      (s2, .ok resultingNamespace))
    (hrb1 : client.RoleBindingsCreate s2 projectRequest.Name
      (requestedBinding "admin" projectRequest.Name userInfo.Name) = (s3, .ok created1))
    (hrb2 : client.RoleBindingsCreate s3 projectRequest.Name
      (requestedBinding (api.GroupName ++ ":admin") projectRequest.Name userInfo.Name) =
        (s4, .ok created2)) :
    (∃ k, 1 ≤ k ∧ k ≤ 6 ∧
      (Create api (recording client) (s, []) ctx obj).1.2.map Event.action =
        [ Action.NamespacesGet projectRequest.Name,
          Action.NamespacesCreate (requestedNamespace api projectRequest userInfo.Name),
          Action.RoleBindingsCreate projectRequest.Name
            (requestedBinding "admin" projectRequest.Name userInfo.Name),
          Action.RoleBindingsCreate projectRequest.Name
            (requestedBinding (api.GroupName ++ ":admin") projectRequest.Name userInfo.Name) ] ++
        List.replicate k
          (Action.SubjectAccessReviewsCreate (accessReview projectRequest.Name userInfo.Name))) ∧
      ((Create api (recording client) (s, []) ctx obj).1.2.map Event.action).filter
          Action.createsObject =
        [ Action.NamespacesCreate (requestedNamespace api projectRequest userInfo.Name),
          Action.RoleBindingsCreate projectRequest.Name
            (requestedBinding "admin" projectRequest.Name userInfo.Name),
          Action.RoleBindingsCreate projectRequest.Name
            (requestedBinding (api.GroupName ++ ":admin") projectRequest.Name userInfo.Name) ] := by
  obtain ⟨pre, hpre⟩ : ∃ pre : List Event, pre =
      [ Event.NamespacesGet projectRequest.Name (.error lookupErr),
        Event.NamespacesCreate (requestedNamespace api projectRequest userInfo.Name)
          (.ok resultingNamespace),
        Event.RoleBindingsCreate projectRequest.Name
          (requestedBinding "admin" projectRequest.Name userInfo.Name) (.ok created1),
        Event.RoleBindingsCreate projectRequest.Name
          (requestedBinding (api.GroupName ++ ":admin") projectRequest.Name userInfo.Name)
          (.ok created2) ] := ⟨_, rfl⟩
  obtain ⟨added, hlog, hprobe⟩ :=
    waitForAccess_recording_log client s4 pre projectRequest.Name userInfo.Name
  obtain ⟨k, hk1, hk6, hactions⟩ := probeLog_actions _ 6 added hprobe (by decide)
  simp only [requestedNamespace, requestedBinding] at hns hrb1 hrb2 hpre ⊢
  have htrace : (Create api (recording client) (s, []) ctx obj).1.2 = pre ++ added := by
    rw [← hlog, hpre]
    simp [Create, recording, huser, hvalid, hget, hns, hrb1, hrb2, rbac.UserKind]
  rw [htrace, hpre]
  refine ⟨⟨k, hk1, hk6, ?_⟩, ?_⟩
  · simp [hactions, Event.action]
  · simp [hactions, Event.action, Action.createsObject, List.filter_cons]

/-- Witness of C8 on the example client, whose reviews are allowed at the second
attempt. -/
theorem Create_issues_namespace_then_two_bindings_witness :
    ((Create examplePackage (recording scriptedClient) ([.ok false, .ok true], [])
        exampleContext exampleRequest).1.2.map Event.action).filter Action.createsObject =
      [ Action.NamespacesCreate
          { Name := "demo"
            ResourceVersion := ""
            Annotations :=
              [ ("openshift.io/description", "a demo project"),
                ("openshift.io/display-name", "Demo"),
                ("openshift.io/requester", "Alice") ] },
        Action.RoleBindingsCreate "demo"
          { Name := "admin"
            Namespace := "demo"
            Subjects := [{ Kind := "User", Name := "Alice" }]
            RoleRef := { Kind := "ClusterRole", Name := "admin" } },
        Action.RoleBindingsCreate "demo"
          { Name := "project.openshift.io:admin"
            Namespace := "demo"
            Subjects := [{ Kind := "User", Name := "Alice" }]
            RoleRef := { Kind := "ClusterRole", Name := "project.openshift.io:admin" } } ] :=
  (Create_issues_namespace_then_two_bindings examplePackage scriptedClient _ _ _ _ _
    exampleContext exampleRequest exampleRequest alice _ _ _ _ rfl rfl rfl rfl rfl rfl).2

/-! ## `waitForAccess` -/

/-- C7, as it is stated, fails: on the example client, whose reviews are never
allowed, `waitForAccess` returns after six reviews none of which came back
allowed; and when the first review is an error it returns after that one. -/
theorem waitForAccess_returns_without_access :
    (waitForAccess (recording scriptedClient) ([], []) "demo" "Alice").2.map Event.allowed =
        [false, false, false, false, false, false] ∧
      (waitForAccess (recording scriptedClient)
          ([.error (GoError.errorString "unavailable")], []) "demo" "Alice").2.map Event.allowed =
        [false] := by
  decide

/-- C7, amended.  `waitForAccess` always returns, after at least one and at most
six subject access reviews, each for verb `get` on the namespace by the user:
every review before the last came back without an error and not allowed, and
either all six came back so, or the last one, within the six, came back allowed
or with an error. -/
theorem waitForAccess_returns_after_at_most_six_reviews {σ : Type} (client : KubeClient σ)
    (s : σ) (ns username : String) :
    probeLog (accessReview ns username) 6
        (waitForAccess (recording client) (s, []) ns username).2 ∧
      1 ≤ (waitForAccess (recording client) (s, []) ns username).2.length ∧
      (waitForAccess (recording client) (s, []) ns username).2.length ≤ 6 ∧
      (accessReview ns username).Spec.ResourceAttributes.Verb = "get" ∧
      (accessReview ns username).Spec.ResourceAttributes.Namespace = ns ∧
      (accessReview ns username).Spec.User = username := by
  obtain ⟨added, hlog, hprobe⟩ := waitForAccess_recording_log client s [] ns username
  obtain ⟨k, hk1, hk6, hactions⟩ := probeLog_actions _ 6 added hprobe (by decide)
  have hlen : added.length = k := by
    have := congrArg List.length hactions
    simpa using this
  rw [hlog]
  simp only [List.nil_append]
  exact ⟨hprobe, by omega, by omega, rfl, rfl, rfl⟩

/-! ## `mockReviewer.Review` -/

/-- C5, as it is stated, fails: a map whose entry for a name is the nil slice has
an entry for that name, and `Review` returns an error for it. -/
theorem Review_error_for_nil_entry :
    SubjectMap.entry [("car", none)] "car" = some none ∧
      mockReviewer.Review { expectedResults := [("car", none)] } "car" =
        .error (GoError.errorString "Item car does not exist") := by
  decide

/-- C5, amended.  `Review` returns an error if and only if `expectedResults` has
no entry for the name or the entry is the nil slice; for a name whose entry is a
slice that is not nil, the empty one included, it returns that entry and no
error. -/
theorem Review_error_iff_no_entry_or_nil (mr : mockReviewer) (name : String) :
    ((∃ err, mr.Review name = .error err) ↔
        (mr.expectedResults.entry name = none ∨ mr.expectedResults.entry name = some none)) ∧
      (∀ subjects, mr.expectedResults.entry name = some (some subjects) →
        mr.Review name = .ok (some subjects)) := by
  unfold mockReviewer.Review SubjectMap.index
  rcases h : mr.expectedResults.entry name with _ | _ | subjects <;> simp

/-- Witness of C5 on the reviewer of the test: the entry of `car`, the empty
slice, is returned without an error, and a name without entry is an error. -/
theorem Review_error_iff_no_entry_or_nil_witness :
    reviewer1.Review "car" = .ok (some []) ∧ ∃ err, reviewer1.Review "dog" = .error err :=
  ⟨(Review_error_iff_no_entry_or_nil reviewer1 "car").2 [] (by decide),
    (Review_error_iff_no_entry_or_nil reviewer1 "dog").1.mpr (Or.inl (by decide))⟩

/-! ## The reverse index -/

theorem mem_lookupSubject_addResource (idx : List (Subject × List String)) (s t : Subject)
    (name x : String) :
    x ∈ lookupSubject (addResource idx s name) t ↔
      x ∈ lookupSubject idx t ∨ (t = s ∧ x = name) := by
  induction idx with
  | nil =>
    by_cases hst : s = t
    · subst hst
      simp [addResource, lookupSubject]
    · have hts : ¬ t = s := fun h => hst h.symm
      simp [addResource, lookupSubject, hst, hts]
  | cons kv rest ih =>
    unfold lookupSubject at ih ⊢
    by_cases hks : kv.1 = s
    · by_cases hkt : kv.1 = t
      · have hts : t = s := hkt.symm.trans hks
        by_cases hmem : name ∈ kv.2
        · simp only [addResource, hks, hkt, hmem, if_true, List.find?_cons, decide_True, hts,
            true_and]
          constructor
          · intro h
            exact Or.inl (by simpa [hts] using h)
          · rintro (h | h)
            · simpa [hts] using h
            · subst h
              exact hmem
        · simp [addResource, hks, hmem, List.find?_cons, hts]
      · have hts : ¬ t = s := fun h => hkt (hks.trans h.symm)
        have hst : ¬ s = t := fun h => hts h.symm
        simp [addResource, hks, List.find?_cons, hts, hst]
    · by_cases hkt : kv.1 = t
      · have hts : ¬ t = s := fun h => hks (hkt.trans h)
        simp [addResource, hks, hkt, List.find?_cons, hts]
      · simp only [addResource, hks, if_false, List.find?_cons, hkt, decide_False]
        exact ih

theorem mem_lookupSubject_foldl_subjects (subjects : List Subject) (name : String) :
    ∀ (idx : List (Subject × List String)) (t : Subject) (x : String),
      x ∈ lookupSubject (subjects.foldl (fun idx1 s => addResource idx1 s name) idx) t ↔
        x ∈ lookupSubject idx t ∨ (t ∈ subjects ∧ x = name) := by
  induction subjects with
  | nil => intro idx t x; simp
  | cons s rest ih =>
    intro idx t x
    rw [List.foldl_cons, ih, mem_lookupSubject_addResource]
    simp only [List.mem_cons]
    tauto

theorem mem_lookupSubject_foldl_records (records : List ResourceRecord) :
    ∀ (idx : List (Subject × List String)) (t : Subject) (x : String),
      x ∈ lookupSubject (records.foldl
          (fun idx0 r => r.subjects.foldl (fun idx1 s => addResource idx1 s r.Name) idx0) idx) t ↔
        x ∈ lookupSubject idx t ∨ ∃ r ∈ records, t ∈ r.subjects ∧ r.Name = x := by
  induction records with
  | nil => intro idx t x; simp
  | cons r rest ih =>
    intro idx t x
    rw [List.foldl_cons, ih, mem_lookupSubject_foldl_subjects]
    simp only [List.mem_cons, exists_eq_or_imp]
    constructor
    · rintro ((h | ⟨h1, h2⟩) | h)
      · exact Or.inl h
      · exact Or.inr (Or.inl ⟨h1, h2.symm⟩)
      · exact Or.inr (Or.inr h)
    · rintro (h | ⟨h1, h2⟩ | h)
      · exact Or.inl (Or.inl h)
      · exact Or.inl (Or.inr ⟨h1, h2.symm⟩)
      · exact Or.inr h

theorem mem_lookupSubject_buildReverse (records : List ResourceRecord) (t : Subject)
    (x : String) :
    x ∈ lookupSubject (buildReverse records) t ↔ ∃ r ∈ records, t ∈ r.subjects ∧ r.Name = x := by
  unfold buildReverse
  rw [mem_lookupSubject_foldl_records]
  simp [lookupSubject]

theorem Published.reverse_eq (c : AuthorizationCache) (h : Published c) :
    c.reverse = buildReverse c.records := by
  induction h with
  | new => rfl
  | setSkip c skip _ ih => exact ih
  | pass reviewer cluster c _ ih =>
    unfold synchronize
    rcases hskip : c.skip.SkipSynchronize cluster.fingerprint with ⟨b, skip1⟩
    cases b
    · rfl
    · exact ih

theorem mem_List_iff (c : AuthorizationCache) (h : Published c) (u : user.DefaultInfo)
    (x : String) :
    x ∈ (lookupSubject c.reverse { Kind := rbac.UserKind, Name := u.Name } ++
        u.Groups.flatMap
          (fun g => lookupSubject c.reverse { Kind := rbac.GroupKind, Name := g })).dedup ↔
      ∃ r ∈ c.records, r.Name = x ∧ ∃ s ∈ r.subjects, grantsTo u s := by
  rw [List.mem_dedup, List.mem_append, List.mem_flatMap, Published.reverse_eq c h]
  simp only [mem_lookupSubject_buildReverse, grantsTo]
  constructor
  · rintro (⟨r, hr, hs, hx⟩ | ⟨g, hg, r, hr, hs, hx⟩)
    · exact ⟨r, hr, hx, _, hs, Or.inl rfl⟩
    · exact ⟨r, hr, hx, _, hs, Or.inr ⟨g, hg, rfl⟩⟩
  · rintro ⟨r, hr, hx, s, hs, (rfl | ⟨g, hg, rfl⟩)⟩
    · exact Or.inl ⟨r, hr, hs, hx⟩
    · exact Or.inr ⟨g, hg, r, hr, hs, hx⟩

/-! ## `List` -/

/-- C1.  For every user and every published cache state, `List` returns, without
an error, a list without repetition whose members are exactly the namespaces
whose record, the subjects of the last review, holds the user subject of the
user name or the group subject of one of the groups of the user. -/
theorem List_exactly_the_granted_namespaces (c : AuthorizationCache) (h : Published c)
    (u : user.DefaultInfo) :
    ∃ names, c.List u = .ok names ∧ names.Nodup ∧
      ∀ name, name ∈ names ↔ ∃ r ∈ c.records, r.Name = name ∧ ∃ s ∈ r.subjects, grantsTo u s :=
  ⟨_, rfl, List.nodup_dedup _, fun name => mem_List_iff c h u name⟩

/-- Witness of C1: the cache of `TestSyncNamespace` after the first
`synchronize()` gives Alice foo, Bob foo, Eve foo and bar, Frank bar, and the
list of Eve is as the theorem says. -/
theorem List_exactly_the_granted_namespaces_witness :
    (testCache1.List alice = .ok ["foo"] ∧ testCache1.List bob = .ok ["foo"] ∧
        testCache1.List eve = .ok ["bar", "foo"] ∧ testCache1.List frank = .ok ["bar"]) ∧
      ∃ names, testCache1.List eve = .ok names ∧ names.Nodup ∧
        ∀ name, name ∈ names ↔
          ∃ r ∈ testCache1.records, r.Name = name ∧ ∃ s ∈ r.subjects, grantsTo eve s :=
  ⟨by decide,
    List_exactly_the_granted_namespaces testCache1
      (Published.pass _ _ _ (Published.setSkip _ _ Published.new)) eve⟩

/-- C4.  For every published cache state and every user to whom no subject of
any record grants, neither directly nor through a group, `List` returns no
error and the empty list. -/
theorem List_empty_without_grant (c : AuthorizationCache) (h : Published c)
    (u : user.DefaultInfo) (hnone : ∀ r ∈ c.records, ∀ s ∈ r.subjects, ¬ grantsTo u s) :
    c.List u = .ok [] := by
  unfold AuthorizationCache.List
  simp only [Except.ok.injEq]
  apply List.eq_nil_iff_forall_not_mem.mpr
  intro x hx
  obtain ⟨r, hr, _, s, hs, hgrant⟩ := (mem_List_iff c h u x).mp hx
  exact hnone r hr s hs hgrant

/-- Witness of C4: after the second `synchronize()` of `TestSyncNamespace`, Frank,
who has no group and is in no subject list, gets no error and the empty list. -/
theorem List_empty_without_grant_witness :
    frank.Groups = [] ∧ testCache2.List frank = .ok [] :=
  ⟨rfl, List_empty_without_grant testCache2
    (Published.pass _ _ _ (Published.pass _ _ _ (Published.setSkip _ _ Published.new))) frank
    (by decide)⟩

/-! ## The forward index -/

theorem findRecord_name (records : List ResourceRecord) (name : String) (r : ResourceRecord)
    (h : findRecord records name = some r) : r.Name = name := by
  have := List.find?_some h
  simpa using this

theorem findRecord_mem (records : List ResourceRecord) (name : String) (r : ResourceRecord)
    (h : findRecord records name = some r) : r ∈ records :=
  List.mem_of_find?_eq_some h

theorem findRecord_of_mem (records : List ResourceRecord) (r : ResourceRecord)
    (hnodup : (records.map ResourceRecord.Name).Nodup) (hr : r ∈ records) :
    findRecord records r.Name = some r := by
  induction records with
  | nil => cases hr
  | cons x rest ih =>
    rw [List.map_cons, List.nodup_cons] at hnodup
    rcases List.mem_cons.mp hr with rfl | hmem
    · simp [findRecord]
    · have hne : ¬ x.Name = r.Name := by
        intro hx
        exact hnodup.1 (hx ▸ List.mem_map_of_mem _ hmem)
      have := ih hnodup.2 hmem
      simpa [findRecord, List.find?_cons, hne] using this

theorem findRecord_setRecord_self (records : List ResourceRecord) (r : ResourceRecord) :
    findRecord (setRecord records r) r.Name = some r := by
  induction records with
  | nil => simp [setRecord, findRecord]
  | cons x rest ih =>
    by_cases hx : x.Name = r.Name
    · simp [setRecord, hx, findRecord]
    · have := ih
      simpa [setRecord, hx, findRecord, List.find?_cons] using this

theorem findRecord_setRecord_at (records : List ResourceRecord) (r : ResourceRecord)
    (name : String) (h : r.Name = name) : findRecord (setRecord records r) name = some r := by
  subst h
  exact findRecord_setRecord_self records r

theorem findRecord_setRecord_other (records : List ResourceRecord) (r : ResourceRecord)
    (name : String) (h : r.Name ≠ name) :
    findRecord (setRecord records r) name = findRecord records name := by
  induction records with
  | nil => simp [setRecord, findRecord, h]
  | cons x rest ih =>
    by_cases hx : x.Name = r.Name
    · have hxn : ¬ x.Name = name := fun hx1 => h (hx.symm.trans hx1)
      simp [setRecord, hx, findRecord, List.find?_cons, h]
    · by_cases hxn : x.Name = name
      · subst hxn
        simp [setRecord, hx, findRecord, List.find?_cons]
      · have := ih
        simpa [setRecord, hx, findRecord, List.find?_cons, hxn] using this

theorem setRecord_names (records : List ResourceRecord) (r : ResourceRecord) :
    (setRecord records r).map ResourceRecord.Name =
      if r.Name ∈ records.map ResourceRecord.Name then records.map ResourceRecord.Name
      else records.map ResourceRecord.Name ++ [r.Name] := by
  induction records with
  | nil => simp [setRecord]
  | cons x rest ih =>
    by_cases hx : x.Name = r.Name
    · simp [setRecord, hx]
    · have hrx : ¬ r.Name = x.Name := fun h1 => hx h1.symm
      simp only [setRecord, hx, if_false, List.map_cons, ih, List.mem_cons, hrx, false_or]
      split <;> simp

theorem setRecord_names_nodup (records : List ResourceRecord) (r : ResourceRecord)
    (h : (records.map ResourceRecord.Name).Nodup) :
    ((setRecord records r).map ResourceRecord.Name).Nodup := by
  rw [setRecord_names]
  split
  · exact h
  · rename_i hmem
    exact List.Nodup.append h (List.nodup_singleton _) (by simpa using hmem)

theorem findRecord_filter (records : List ResourceRecord) (q : String → Bool) (name : String) :
    findRecord (records.filter (fun r => q r.Name)) name =
      if q name then findRecord records name else none := by
  induction records with
  | nil => simp [findRecord]
  | cons x rest ih =>
    unfold findRecord at ih ⊢
    by_cases hx : x.Name = name
    · subst hx
      by_cases hq : q x.Name = true
      · simp [List.filter_cons, hq]
      · simp only [List.filter_cons, hq, if_false] at ih ⊢
        exact ih
    · by_cases hq : q x.Name = true
      · simp only [List.filter_cons, hq, if_true, List.find?_cons, hx, decide_False]
        exact ih
      · simp only [List.filter_cons, hq, if_false, List.find?_cons, hx, decide_False]
        exact ih

theorem observeResource_name (records : List ResourceRecord) (ns : kapi.Namespace) :
    (observeResource (findRecord records ns.Name) ns).Name = ns.Name := by
  rcases h : findRecord records ns.Name with _ | r
  · rfl
  · exact findRecord_name records ns.Name r h

/-! ## One step of a pass -/

theorem reviewResource_name (reviewer : Reviewer) (invalidateAll : Bool)
    (st : List ResourceRecord × List String) (ns : kapi.Namespace) :
    ∃ r, r.Name = ns.Name ∧ (reviewResource reviewer invalidateAll st ns).1 = setRecord st.1 r := by
  unfold reviewResource
  have hname := observeResource_name st.1 ns
  simp only
  split
  · split
    · refine ⟨_, ?_, rfl⟩
      exact hname
    · refine ⟨_, ?_, rfl⟩
      exact hname
  · refine ⟨_, ?_, rfl⟩
    exact hname

theorem reviewResource_findRecord_other (reviewer : Reviewer) (invalidateAll : Bool)
    (st : List ResourceRecord × List String) (ns : kapi.Namespace) (name : String)
    (h : ns.Name ≠ name) :
    findRecord (reviewResource reviewer invalidateAll st ns).1 name = findRecord st.1 name := by
  obtain ⟨r, hr, heq⟩ := reviewResource_name reviewer invalidateAll st ns
  rw [heq]
  exact findRecord_setRecord_other st.1 r name (hr ▸ h)

theorem reviewResource_names_nodup (reviewer : Reviewer) (invalidateAll : Bool)
    (st : List ResourceRecord × List String) (ns : kapi.Namespace)
    (h : (st.1.map ResourceRecord.Name).Nodup) :
    ((reviewResource reviewer invalidateAll st ns).1.map ResourceRecord.Name).Nodup := by
  obtain ⟨r, _, heq⟩ := reviewResource_name reviewer invalidateAll st ns
  rw [heq]
  exact setRecord_names_nodup st.1 r h

theorem reviewResource_log (reviewer : Reviewer) (invalidateAll : Bool)
    (records : List ResourceRecord) (calls : List String) (ns : kapi.Namespace) :
    reviewResource reviewer invalidateAll (records, calls) ns =
      ((reviewResource reviewer invalidateAll (records, []) ns).1,
        calls ++ (reviewResource reviewer invalidateAll (records, []) ns).2) := by
  unfold reviewResource
  simp only
  split
  · split <;> simp
  · simp

theorem reviewResource_cases (reviewer : Reviewer) (invalidateAll : Bool)
    (records : List ResourceRecord) (ns : kapi.Namespace) :
    (∃ review, reviewer ns.Name = .ok review ∧ needsReview invalidateAll records ns ∧
        reviewResource reviewer invalidateAll (records, []) ns =
          (setRecord records
            { observeResource (findRecord records ns.Name) ns with
              lastReviewed := some ns.ResourceVersion
              subjects := reviewSubjects review }, [ns.Name])) ∨
      (∃ err, reviewer ns.Name = .error err ∧ needsReview invalidateAll records ns ∧
        reviewResource reviewer invalidateAll (records, []) ns =
          (setRecord records (observeResource (findRecord records ns.Name) ns), [ns.Name])) ∨
      (invalidateAll = false ∧
        (∃ r, findRecord records ns.Name = some r ∧ r.lastReviewed = some ns.ResourceVersion) ∧
        reviewResource reviewer invalidateAll (records, []) ns =
          (setRecord records (observeResource (findRecord records ns.Name) ns), [])) := by
  unfold reviewResource needsReview
  simp only
  rcases hknown : findRecord records ns.Name with _ | r
  · rcases hrev : reviewer ns.Name with err | review
    · exact Or.inr (Or.inl ⟨err, rfl, Or.inr (Or.inl rfl), by simp⟩)
    · exact Or.inl ⟨review, rfl, Or.inr (Or.inl rfl), by simp⟩
  · by_cases hall : invalidateAll = true
    · rcases hrev : reviewer ns.Name with err | review
      · exact Or.inr (Or.inl ⟨err, rfl, Or.inl hall, by simp [hall]⟩)
      · exact Or.inl ⟨review, rfl, Or.inl hall, by simp [hall]⟩
    · have hall1 : invalidateAll = false := by simpa using hall
      by_cases hver : r.lastReviewed = some ns.ResourceVersion
      · refine Or.inr (Or.inr ⟨hall1, ⟨r, rfl, hver⟩, ?_⟩)
        simp [hall1, observeResource, hver]
      · rcases hrev : reviewer ns.Name with err | review
        · exact Or.inr (Or.inl ⟨err, rfl, Or.inr (Or.inr ⟨r, rfl, hver⟩),
            by simp [observeResource, hver]⟩)
        · exact Or.inl ⟨review, rfl, Or.inr (Or.inr ⟨r, rfl, hver⟩),
            by simp [observeResource, hver]⟩

theorem observeResource_known (r : ResourceRecord) (ns : kapi.Namespace) :
    (observeResource (some r) ns).subjects = r.subjects ∧
      (observeResource (some r) ns).lastReviewed = r.lastReviewed :=
  ⟨rfl, rfl⟩

theorem reviewResource_target (reviewer : Reviewer) (invalidateAll : Bool)
    (target : List Subject) (st : List ResourceRecord × List String) (ns : kapi.Namespace)
    (hok : ∀ review, reviewer ns.Name = .ok review → target = reviewSubjects review)
    (hkeep : ∀ r, findRecord st.1 ns.Name = some r → target ≠ r.subjects →
      (∃ review, reviewer ns.Name = .ok review) ∧ r.lastReviewed ≠ some ns.ResourceVersion)
    (hnew : findRecord st.1 ns.Name = none → (∃ err, reviewer ns.Name = .error err) →
      target = []) :
    ∃ r, findRecord (reviewResource reviewer invalidateAll st ns).1 ns.Name = some r ∧
      r.subjects = target := by
  obtain ⟨records, calls⟩ := st
  rw [reviewResource_log]
  have hname := observeResource_name records ns
  rcases reviewResource_cases reviewer invalidateAll records ns with
    ⟨review1, hrev, _, heq⟩ | ⟨err, hrev, _, heq⟩ | ⟨_, ⟨r, hknown, hver⟩, heq⟩
  · rw [heq]
    exact ⟨_, findRecord_setRecord_at records _ _ hname, (hok review1 hrev).symm⟩
  · rw [heq]
    refine ⟨_, findRecord_setRecord_at records _ _ hname, ?_⟩
    rcases hknown : findRecord records ns.Name with _ | r
    · exact (hnew hknown ⟨err, hrev⟩).symm
    · rw [(observeResource_known r ns).1]
      by_contra hne
      obtain ⟨⟨review, hrev1⟩, _⟩ := hkeep r hknown (fun h => hne h.symm)
      rw [hrev] at hrev1
      cases hrev1
  · rw [heq]
    refine ⟨_, findRecord_setRecord_at records _ _ hname, ?_⟩
    rw [hknown, (observeResource_known r ns).1]
    by_contra hne
    exact (hkeep r hknown (fun h => hne h.symm)).2 hver

theorem reviewResource_version_or_failed (reviewer : Reviewer) (invalidateAll : Bool)
    (records : List ResourceRecord) (ns : kapi.Namespace) :
    ∃ r, findRecord (reviewResource reviewer invalidateAll (records, []) ns).1 ns.Name = some r ∧
      (r.lastReviewed = some ns.ResourceVersion ∨
        (ns.Name ∈ (reviewResource reviewer invalidateAll (records, []) ns).2 ∧
          ∃ err, reviewer ns.Name = .error err)) := by
  have hname := observeResource_name records ns
  rcases reviewResource_cases reviewer invalidateAll records ns with
    ⟨review1, _, _, heq⟩ | ⟨err, hrev, _, heq⟩ | ⟨_, ⟨r, hknown, hver⟩, heq⟩
  · rw [heq]
    exact ⟨_, findRecord_setRecord_at records _ _ hname, Or.inl rfl⟩
  · rw [heq]
    exact ⟨_, findRecord_setRecord_at records _ _ hname, Or.inr ⟨by simp, err, hrev⟩⟩
  · rw [heq]
    refine ⟨_, findRecord_setRecord_at records _ _ hname, Or.inl ?_⟩
    rw [hknown, (observeResource_known r ns).2]
    exact hver

theorem reviewResource_call_cause (reviewer : Reviewer) (invalidateAll : Bool)
    (records : List ResourceRecord) (ns : kapi.Namespace) (name : String)
    (h : name ∈ (reviewResource reviewer invalidateAll (records, []) ns).2) :
    name = ns.Name ∧ needsReview invalidateAll records ns := by
  rcases reviewResource_cases reviewer invalidateAll records ns with
    ⟨_, _, hneed, heq⟩ | ⟨_, _, hneed, heq⟩ | ⟨_, _, heq⟩
  · rw [heq] at h
    exact ⟨by simpa using h, hneed⟩
  · rw [heq] at h
    exact ⟨by simpa using h, hneed⟩
  · rw [heq] at h
    cases h

/-! ## The review loop of a pass -/

theorem foldl_reviewResource_log (reviewer : Reviewer) (invalidateAll : Bool)
    (l : List kapi.Namespace) :
    ∀ (records : List ResourceRecord) (calls : List String),
      l.foldl (reviewResource reviewer invalidateAll) (records, calls) =
        ((l.foldl (reviewResource reviewer invalidateAll) (records, [])).1,
          calls ++ (l.foldl (reviewResource reviewer invalidateAll) (records, [])).2) := by
  induction l with
  | nil => intro records calls; simp
  | cons ns rest ih =>
    intro records calls
    rw [List.foldl_cons, List.foldl_cons, reviewResource_log, ih]
    conv_rhs => rw [ih]
    simp [List.append_assoc]

theorem foldl_reviewResource_findRecord_other (reviewer : Reviewer) (invalidateAll : Bool)
    (l : List kapi.Namespace) (name : String) :
    ∀ (st : List ResourceRecord × List String), name ∉ l.map kapi.Namespace.Name →
      findRecord (l.foldl (reviewResource reviewer invalidateAll) st).1 name =
        findRecord st.1 name := by
  induction l with
  | nil => intro st _; rfl
  | cons ns rest ih =>
    intro st hnot
    rw [List.map_cons, List.mem_cons, not_or] at hnot
    rw [List.foldl_cons, ih _ hnot.2]
    exact reviewResource_findRecord_other reviewer invalidateAll st ns name
      (fun h => hnot.1 h.symm)

theorem foldl_reviewResource_names_nodup (reviewer : Reviewer) (invalidateAll : Bool)
    (l : List kapi.Namespace) :
    ∀ (st : List ResourceRecord × List String), (st.1.map ResourceRecord.Name).Nodup →
      ((l.foldl (reviewResource reviewer invalidateAll) st).1.map ResourceRecord.Name).Nodup := by
  induction l with
  | nil => intro st h; exact h
  | cons ns rest ih =>
    intro st h
    rw [List.foldl_cons]
    exact ih _ (reviewResource_names_nodup reviewer invalidateAll st ns h)

theorem foldl_reviewResource_target (reviewer : Reviewer) (invalidateAll : Bool)
    (target : String → List Subject) (l : List kapi.Namespace) :
    ∀ (st : List ResourceRecord × List String),
      (∀ ns ∈ l, ∀ review, reviewer ns.Name = .ok review →
        target ns.Name = reviewSubjects review) →
      (∀ ns ∈ l, ∀ r, findRecord st.1 ns.Name = some r → target ns.Name ≠ r.subjects →
        (∃ review, reviewer ns.Name = .ok review) ∧ r.lastReviewed ≠ some ns.ResourceVersion) →
      (∀ ns ∈ l, findRecord st.1 ns.Name = none → (∃ err, reviewer ns.Name = .error err) →
        target ns.Name = []) →
      ∀ ns ∈ l,
        ∃ r, findRecord (l.foldl (reviewResource reviewer invalidateAll) st).1 ns.Name = some r ∧
          r.subjects = target ns.Name := by
  induction l with
  | nil => intro st _ _ _ ns hns; cases hns
  | cons ns0 rest ih =>
    intro st hok hkeep hnew ns hns
    obtain ⟨r0, hfind0, hsub0⟩ := reviewResource_target reviewer invalidateAll (target ns0.Name)
      st ns0 (hok ns0 (List.mem_cons_self _ _)) (hkeep ns0 (List.mem_cons_self _ _))
      (hnew ns0 (List.mem_cons_self _ _))
    have hok1 : ∀ ns1 ∈ rest, ∀ review, reviewer ns1.Name = .ok review →
        target ns1.Name = reviewSubjects review :=
      fun ns1 h1 => hok ns1 (List.mem_cons_of_mem _ h1)
    have hkeep1 : ∀ ns1 ∈ rest, ∀ r,
        findRecord (reviewResource reviewer invalidateAll st ns0).1 ns1.Name = some r →
        target ns1.Name ≠ r.subjects →
        (∃ review, reviewer ns1.Name = .ok review) ∧
          r.lastReviewed ≠ some ns1.ResourceVersion := by
      intro ns1 h1 r hfind hne
      by_cases hname : ns0.Name = ns1.Name
      · rw [← hname, hfind0] at hfind
        cases hfind
        rw [← hname] at hne
        exact absurd hsub0.symm hne
      · rw [reviewResource_findRecord_other reviewer invalidateAll st ns0 ns1.Name hname] at hfind
        exact hkeep ns1 (List.mem_cons_of_mem _ h1) r hfind hne
    have hnew1 : ∀ ns1 ∈ rest,
        findRecord (reviewResource reviewer invalidateAll st ns0).1 ns1.Name = none →
        (∃ err, reviewer ns1.Name = .error err) → target ns1.Name = [] := by
      intro ns1 h1 hfind herr
      by_cases hname : ns0.Name = ns1.Name
      · rw [← hname, hfind0] at hfind
        cases hfind
      · rw [reviewResource_findRecord_other reviewer invalidateAll st ns0 ns1.Name hname] at hfind
        exact hnew ns1 (List.mem_cons_of_mem _ h1) hfind herr
    rw [List.foldl_cons]
    by_cases hin : ns.Name ∈ rest.map kapi.Namespace.Name
    · obtain ⟨ns1, h1, hname1⟩ := List.mem_map.mp hin
      have := ih _ hok1 hkeep1 hnew1 ns1 h1
      rwa [hname1] at this
    · have hns0 : ns = ns0 := by
        rcases List.mem_cons.mp hns with h | h
        · exact h
        · exact absurd (List.mem_map_of_mem _ h) hin
      subst hns0
      rw [foldl_reviewResource_findRecord_other reviewer invalidateAll rest ns.Name _ hin]
      exact ⟨r0, hfind0, hsub0⟩

theorem foldl_reviewResource_version_or_failed (reviewer : Reviewer) (invalidateAll : Bool)
    (l : List kapi.Namespace) :
    ∀ (records : List ResourceRecord), (l.map kapi.Namespace.Name).Nodup →
      ∀ ns ∈ l, ∃ r,
        findRecord (l.foldl (reviewResource reviewer invalidateAll) (records, [])).1 ns.Name =
            some r ∧
          (r.lastReviewed = some ns.ResourceVersion ∨
            (ns.Name ∈ (l.foldl (reviewResource reviewer invalidateAll) (records, [])).2 ∧
              ∃ err, reviewer ns.Name = .error err)) := by
  induction l with
  | nil => intro records _ ns hns; cases hns
  | cons ns0 rest ih =>
    intro records hnodup ns hns
    rw [List.map_cons, List.nodup_cons] at hnodup
    rw [List.foldl_cons]
    have hstep0 := reviewResource_version_or_failed reviewer invalidateAll records ns0
    rcases hstep : reviewResource reviewer invalidateAll (records, []) ns0 with ⟨records1, calls1⟩
    rw [hstep] at hstep0
    rw [foldl_reviewResource_log]
    simp only at hstep0 ⊢
    rcases List.mem_cons.mp hns with h | h
    · subst h
      rw [foldl_reviewResource_findRecord_other reviewer invalidateAll rest ns.Name _ hnodup.1]
      obtain ⟨r, hfind, hcase⟩ := hstep0
      refine ⟨r, hfind, ?_⟩
      rcases hcase with hver | ⟨hmem, herr⟩
      · exact Or.inl hver
      · exact Or.inr ⟨List.mem_append_left _ hmem, herr⟩
    · obtain ⟨r, hfind, hcase⟩ := ih records1 hnodup.2 ns h
      refine ⟨r, hfind, ?_⟩
      rcases hcase with hver | ⟨hmem, herr⟩
      · exact Or.inl hver
      · exact Or.inr ⟨List.mem_append_right _ hmem, herr⟩

theorem foldl_reviewResource_call_cause (reviewer : Reviewer) (invalidateAll : Bool)
    (l : List kapi.Namespace) :
    ∀ (records : List ResourceRecord), (l.map kapi.Namespace.Name).Nodup →
      ∀ name ∈ (l.foldl (reviewResource reviewer invalidateAll) (records, [])).2,
        ∃ ns ∈ l, ns.Name = name ∧ needsReview invalidateAll records ns := by
  induction l with
  | nil => intro records _ name hname; cases hname
  | cons ns0 rest ih =>
    intro records hnodup name hname
    rw [List.map_cons, List.nodup_cons] at hnodup
    rw [List.foldl_cons] at hname
    rcases hstep : reviewResource reviewer invalidateAll (records, []) ns0 with ⟨records1, calls1⟩
    rw [hstep, foldl_reviewResource_log] at hname
    simp only at hname
    rcases List.mem_append.mp hname with h | h
    · have := reviewResource_call_cause reviewer invalidateAll records ns0 name (by rw [hstep]; exact h)
      exact ⟨ns0, List.mem_cons_self _ _, this.1.symm, this.2⟩
    · obtain ⟨ns, hns, hnsname, hneed⟩ := ih records1 hnodup.2 name h
      refine ⟨ns, List.mem_cons_of_mem _ hns, hnsname, ?_⟩
      have hne : ns0.Name ≠ ns.Name := by
        intro heq
        exact hnodup.1 (heq ▸ List.mem_map_of_mem _ hns)
      have hsame := reviewResource_findRecord_other reviewer invalidateAll (records, []) ns0
        ns.Name hne
      rw [hstep] at hsame
      simp only at hsame
      unfold needsReview at hneed ⊢
      rw [hsame] at hneed
      exact hneed

/-! ## A pass -/

theorem Published.names_nodup (c : AuthorizationCache) (h : Published c) :
    (c.records.map ResourceRecord.Name).Nodup := by
  induction h with
  | new => exact List.nodup_nil
  | setSkip c skip _ ih => exact ih
  | pass reviewer cluster c _ ih =>
    unfold synchronize
    rcases hskip : c.skip.SkipSynchronize cluster.fingerprint with ⟨b, skip1⟩
    cases b
    · exact List.Nodup.sublist ((List.filter_sublist _).map _)
        (foldl_reviewResource_names_nodup reviewer cluster.policyChanged cluster.namespaces
          (c.records, []) ih)
    · exact ih

theorem synchronize_neverSkip (reviewer : Reviewer) (cluster : ClusterState)
    (c : AuthorizationCache) (hskip : c.skip = .neverSkipSynchronizer) :
    (synchronize reviewer cluster c).1.records =
        (cluster.namespaces.foldl (reviewResource reviewer cluster.policyChanged)
          (c.records, [])).1.filter
          (fun r => cluster.namespaces.any (fun ns => decide (ns.Name = r.Name))) ∧
      (synchronize reviewer cluster c).2 =
        (cluster.namespaces.foldl (reviewResource reviewer cluster.policyChanged)
          (c.records, [])).2 ∧
      (synchronize reviewer cluster c).1.skip = .neverSkipSynchronizer := by
  unfold synchronize
  rw [hskip]
  exact ⟨rfl, rfl, rfl⟩

theorem any_name_iff (l : List kapi.Namespace) (name : String) :
    l.any (fun ns => decide (ns.Name = name)) = true ↔ ∃ ns ∈ l, ns.Name = name := by
  simp [List.any_eq_true]

theorem synchronize_calls (reviewer : Reviewer) (cluster : ClusterState)
    (c : AuthorizationCache) :
    (synchronize reviewer cluster c).2 = [] ∨
      (synchronize reviewer cluster c).2 =
        (cluster.namespaces.foldl (reviewResource reviewer cluster.policyChanged)
          (c.records, [])).2 := by
  unfold synchronize
  rcases hskip : c.skip.SkipSynchronize cluster.fingerprint with ⟨b, skip1⟩
  cases b
  · exact Or.inr rfl
  · exact Or.inl rfl

theorem synchronize_twice_changeAware (reviewer reviewer2 : Reviewer) (cluster : ClusterState)
    (c : AuthorizationCache) (baseline : Option Nat) (hskip : c.skip = .changeAware baseline) :
    (synchronize reviewer2 { cluster with policyChanged := false }
      (synchronize reviewer cluster c).1).2 = [] := by
  by_cases hb : baseline = some cluster.fingerprint
  · simp [synchronize, hskip, SkipSynchronizer.SkipSynchronize, hb]
  · simp [synchronize, hskip, SkipSynchronizer.SkipSynchronize, hb]

theorem exists_ok_of_isOk {α : Type} (e : Except GoError α) (h : e.isOk = true) :
    ∃ a, e = .ok a := by
  cases e with
  | error err => simp [Except.isOk, Except.toBool] at h
  | ok a => exact ⟨a, rfl⟩

/-! ## `synchronize` -/

/-- C2, as it is stated, fails: in the cache of the test after the first pass,
foo was reviewed with Alice among its subjects; the results of the reviewer
change so that it has none for foo any more, and none that grants to Alice; the
resource version of every namespace is changed; the never-skipping pass calls
`Review` for the three namespaces; and `List` still gives foo to Alice. -/
theorem stale_grant_survives_failed_review :
    testCache1.skip = .neverSkipSynchronizer ∧
      testCache1.records.map (fun r => (r.Name, r.lastReviewed)) =
        [("foo", some "1"), ("bar", some "2"), ("car", some "3")] ∧
      testCluster2.namespaces.map (fun ns => (ns.Name, ns.ResourceVersion)) =
        [("foo", "2"), ("bar", "3"), ("car", "4")] ∧
      lapsedReviewer.Review "foo" = .error (GoError.errorString "Item foo does not exist") ∧
      lapsedReviewer.Review "bar" = .ok (some []) ∧
      lapsedReviewer.Review "car" = .ok (some []) ∧
      (synchronize lapsedReviewer.Review testCluster2 testCache1).2 = ["foo", "bar", "car"] ∧
      (synchronize lapsedReviewer.Review testCluster2 testCache1).1.List alice = .ok ["foo"] := by
  decide

theorem mem_subjectsAfterPass (reviewer : Reviewer) (records : List ResourceRecord)
    (name : String) (s : Subject) :
    s ∈ subjectsAfterPass reviewer records name ↔
      (∃ review, reviewer name = .ok review ∧ s ∈ reviewSubjects review) ∨
        (∃ err r, reviewer name = .error err ∧ findRecord records name = some r ∧
          s ∈ r.subjects) := by
  unfold subjectsAfterPass
  rcases hrev : reviewer name with err | review
  · rcases hknown : findRecord records name with _ | r
    · simp
    · simp
  · simp

/-- C2, amended.  For every published cache with the never-skipping strategy,
every set of namespaces and every reviewer: when every namespace for which the
reviewer returns a result other than the subjects the cache holds for it has a
resource version other than the one recorded at its last review, then after one
`synchronize()` the list of every user is, without repetition, exactly the
namespaces of the set that either have a new result holding a subject that
grants to the user, or have a failing review and a record, in the cache before
the pass, holding a subject that grants to the user.  So the pass converges on
every namespace the reviewer returns a result for, and a namespace whose review
fails keeps the subjects it had. -/
theorem synchronize_converges (reviewer : Reviewer) (cluster : ClusterState)
    (c : AuthorizationCache) (u : user.DefaultInfo) (hpub : Published c)
    (hskip : c.skip = .neverSkipSynchronizer)
    (hbump : ∀ ns ∈ cluster.namespaces, ∀ r review, findRecord c.records ns.Name = some r →
      reviewer ns.Name = .ok review → reviewSubjects review ≠ r.subjects →
      r.lastReviewed ≠ some ns.ResourceVersion) :
    ∃ names, (synchronize reviewer cluster c).1.List u = .ok names ∧ names.Nodup ∧
      ∀ name, name ∈ names ↔
        ∃ ns ∈ cluster.namespaces, ns.Name = name ∧
          ((∃ review, reviewer name = .ok review ∧ ∃ s ∈ reviewSubjects review, grantsTo u s) ∨
            (∃ err r, reviewer name = .error err ∧ findRecord c.records name = some r ∧
              ∃ s ∈ r.subjects, grantsTo u s)) := by
  refine ⟨_, rfl, List.nodup_dedup _, fun name => ?_⟩
  rw [mem_List_iff _ (Published.pass reviewer cluster c hpub) u name,
    (synchronize_neverSkip reviewer cluster c hskip).1]
  have hconv := foldl_reviewResource_target reviewer cluster.policyChanged
    (subjectsAfterPass reviewer c.records) cluster.namespaces (c.records, [])
    (by
      intro ns _ review hok
      simp [subjectsAfterPass, hok])
    (by
      intro ns hns r hfind hne
      rcases hrev : reviewer ns.Name with err | review
      · exact absurd (by simp [subjectsAfterPass, hrev, hfind]) hne
      · refine ⟨⟨review, rfl⟩, hbump ns hns r review hfind hrev ?_⟩
        simpa [subjectsAfterPass, hrev] using hne)
    (by
      rintro ns _ hfind ⟨err, hrev⟩
      simp [subjectsAfterPass, hrev, hfind])
  have hnodup := foldl_reviewResource_names_nodup reviewer cluster.policyChanged
    cluster.namespaces (c.records, []) (Published.names_nodup c hpub)
  have hgoal : (∃ r ∈ List.filter
        (fun r => cluster.namespaces.any (fun ns => decide (ns.Name = r.Name)))
        (cluster.namespaces.foldl (reviewResource reviewer cluster.policyChanged)
          (c.records, [])).1, r.Name = name ∧ ∃ s ∈ r.subjects, grantsTo u s) ↔
      ∃ ns ∈ cluster.namespaces, ns.Name = name ∧
        ∃ s ∈ subjectsAfterPass reviewer c.records name, grantsTo u s := by
    constructor
    · rintro ⟨r, hr, hname, s, hs, hgrant⟩
      obtain ⟨hr1, hq⟩ := List.mem_filter.mp hr
      obtain ⟨ns, hns, hnsname⟩ := (any_name_iff cluster.namespaces r.Name).mp hq
      obtain ⟨r1, hfind, hsub⟩ := hconv ns hns
      have hfind1 := findRecord_of_mem _ r hnodup hr1
      rw [hnsname, hfind1] at hfind
      cases hfind
      refine ⟨ns, hns, hnsname.trans hname, s, ?_, hgrant⟩
      rw [← hname, ← hnsname, ← hsub]
      exact hs
    · rintro ⟨ns, hns, hname, s, hs, hgrant⟩
      obtain ⟨r1, hfind, hsub⟩ := hconv ns hns
      have hr1name := findRecord_name _ _ _ hfind
      refine ⟨r1, List.mem_filter.mpr ⟨findRecord_mem _ _ _ hfind, ?_⟩, hr1name.trans hname, s,
        ?_, hgrant⟩
      · exact (any_name_iff cluster.namespaces r1.Name).mpr ⟨ns, hns, hr1name.symm⟩
      · rw [hsub, hname]
        exact hs
  rw [hgoal]
  constructor
  · rintro ⟨ns, hns, hname, s, hs, hgrant⟩
    refine ⟨ns, hns, hname, ?_⟩
    rcases (mem_subjectsAfterPass reviewer c.records name s).mp hs with
      ⟨review, hrev, hmem⟩ | ⟨err, r, hrev, hfind, hmem⟩
    · exact Or.inl ⟨review, hrev, s, hmem, hgrant⟩
    · exact Or.inr ⟨err, r, hrev, hfind, s, hmem, hgrant⟩
  · rintro ⟨ns, hns, hname, h⟩
    rcases h with ⟨review, hrev, s, hmem, hgrant⟩ | ⟨err, r, hrev, hfind, s, hmem, hgrant⟩
    · exact ⟨ns, hns, hname, s,
        (mem_subjectsAfterPass reviewer c.records name s).mpr (Or.inl ⟨review, hrev, hmem⟩),
        hgrant⟩
    · exact ⟨ns, hns, hname, s,
        (mem_subjectsAfterPass reviewer c.records name s).mpr
          (Or.inr ⟨err, r, hrev, hfind, hmem⟩), hgrant⟩

/-- Witness of C2.  The second phase of `TestSyncNamespace`: with the new results
and every resource version incremented, the second `synchronize()` gives Alice
bar, Bob foo, bar and car, Eve bar and car, Frank nothing, and the list of Bob is
as the theorem says.  And with a reviewer that fails for foo, the list of Alice
is as the theorem says: foo, which the cache held for her, and nothing else. -/
theorem synchronize_converges_witness :
    (testCache2.List alice = .ok ["bar"] ∧ testCache2.List bob = .ok ["foo", "bar", "car"] ∧
        testCache2.List eve = .ok ["bar", "car"] ∧ testCache2.List frank = .ok []) ∧
      (∃ names, (synchronize reviewer2.Review testCluster2 testCache1).1.List bob = .ok names ∧
        names.Nodup ∧
        ∀ name, name ∈ names ↔
          ∃ ns ∈ testCluster2.namespaces, ns.Name = name ∧
            ((∃ review, reviewer2.Review name = .ok review ∧
                ∃ s ∈ reviewSubjects review, grantsTo bob s) ∨
              (∃ err r, reviewer2.Review name = .error err ∧
                findRecord testCache1.records name = some r ∧
                ∃ s ∈ r.subjects, grantsTo bob s))) ∧
      (∃ names,
        (synchronize lapsedReviewer.Review testCluster2 testCache1).1.List alice = .ok names ∧
        names.Nodup ∧
        ∀ name, name ∈ names ↔
          ∃ ns ∈ testCluster2.namespaces, ns.Name = name ∧
            ((∃ review, lapsedReviewer.Review name = .ok review ∧
                ∃ s ∈ reviewSubjects review, grantsTo alice s) ∨
              (∃ err r, lapsedReviewer.Review name = .error err ∧
                findRecord testCache1.records name = some r ∧
                ∃ s ∈ r.subjects, grantsTo alice s))) :=
  ⟨by decide,
    synchronize_converges reviewer2.Review testCluster2 testCache1 bob
      (Published.pass _ _ _ (Published.setSkip _ _ Published.new)) rfl
      (fun ns hns r _ hfind _ _ =>
        (by decide : ∀ ns ∈ testCluster2.namespaces, ∀ r ∈ testCache1.records,
            r.Name = ns.Name → r.lastReviewed ≠ some ns.ResourceVersion)
          ns hns r (findRecord_mem _ _ _ hfind) (findRecord_name _ _ _ hfind)),
    synchronize_converges lapsedReviewer.Review testCluster2 testCache1 alice
      (Published.pass _ _ _ (Published.setSkip _ _ Published.new)) rfl
      (fun ns hns r _ hfind _ _ =>
        (by decide : ∀ ns ∈ testCluster2.namespaces, ∀ r ∈ testCache1.records,
            r.Name = ns.Name → r.lastReviewed ≠ some ns.ResourceVersion)
          ns hns r (findRecord_mem _ _ _ hfind) (findRecord_name _ _ _ hfind))⟩

/-- C3, as it is stated, fails: the reviewer has no result for foo; the first pass
completes; nothing changes; the second pass calls `Review` again, for foo and
for foo only. -/
theorem second_pass_reviews_again_after_failure :
    lapsedReviewer.Review "foo" = .error (GoError.errorString "Item foo does not exist") ∧
      (synchronize lapsedReviewer.Review testCluster1 testCache0).2 = ["foo", "bar", "car"] ∧
      testCluster1.policyChanged = false ∧
      (synchronize lapsedReviewer.Review testCluster1
        (synchronize lapsedReviewer.Review testCluster1 testCache0).1).2 = ["foo"] := by
  decide

/-- C3, amended.  For every cache, skip strategy and set of namespaces with
distinct names: after a `synchronize()`, a second `synchronize()` on the same
namespaces, resource versions and fingerprint, with no policy object changed,
calls `Review`, whatever the reviewer then is, only for namespaces for which
the first pass called `Review` and the reviewer returned an error; so it makes
no call when every `Review` call of the first pass returned a result; and every
call to `Review` a pass makes is for a namespace of the set for which a policy
object changed, or which is newly observed, or whose observed resource version
differs from the version recorded at its last review. -/
theorem second_synchronize_reviews_only_failed (reviewer reviewer2 : Reviewer)
    (cluster : ClusterState) (c : AuthorizationCache)
    (hnodup : (cluster.namespaces.map kapi.Namespace.Name).Nodup) :
    (∀ name ∈ (synchronize reviewer2 { cluster with policyChanged := false }
          (synchronize reviewer cluster c).1).2,
        name ∈ (synchronize reviewer cluster c).2 ∧ ∃ err, reviewer name = .error err) ∧
      ((∀ name ∈ (synchronize reviewer cluster c).2, ∃ review, reviewer name = .ok review) →
        (synchronize reviewer2 { cluster with policyChanged := false }
          (synchronize reviewer cluster c).1).2 = []) ∧
      ∀ name ∈ (synchronize reviewer cluster c).2,
        ∃ ns ∈ cluster.namespaces, ns.Name = name ∧
          needsReview cluster.policyChanged c.records ns := by
  have hfailed : ∀ name ∈ (synchronize reviewer2 { cluster with policyChanged := false }
        (synchronize reviewer cluster c).1).2,
      name ∈ (synchronize reviewer cluster c).2 ∧ ∃ err, reviewer name = .error err := by
    rcases hskip : c.skip with _ | baseline
    · obtain ⟨hrecords, hcalls, hskip1⟩ := synchronize_neverSkip reviewer cluster c hskip
      rw [(synchronize_neverSkip reviewer2 _ _ hskip1).2.1, hrecords, hcalls]
      intro name hname
      obtain ⟨ns, hns, hnsname, hneed⟩ := foldl_reviewResource_call_cause reviewer2 false
        cluster.namespaces _ hnodup name hname
      obtain ⟨r, hfind, hcase⟩ := foldl_reviewResource_version_or_failed reviewer
        cluster.policyChanged cluster.namespaces c.records hnodup ns hns
      have hfind1 := findRecord_filter
        (cluster.namespaces.foldl (reviewResource reviewer cluster.policyChanged)
          (c.records, [])).1
        (fun name => cluster.namespaces.any (fun ns1 => decide (ns1.Name = name))) ns.Name
      rw [if_pos ((any_name_iff cluster.namespaces ns.Name).mpr ⟨ns, hns, rfl⟩), hfind] at hfind1
      rcases hcase with hver | hfail
      · rcases hneed with h | h | ⟨r1, h1, h2⟩
        · cases h
        · rw [hfind1] at h
          cases h
        · rw [hfind1] at h1
          cases h1
          exact absurd hver h2
      · rw [← hnsname]
        exact hfail
    · rw [synchronize_twice_changeAware reviewer reviewer2 cluster c baseline hskip]
      intro name hname
      cases hname
  refine ⟨hfailed, ?_, ?_⟩
  · intro hok
    apply List.eq_nil_iff_forall_not_mem.mpr
    intro name hname
    obtain ⟨hfirst, err, herr⟩ := hfailed name hname
    obtain ⟨review, hrev⟩ := hok name hfirst
    rw [hrev] at herr
    cases herr
  · intro name hname
    rcases synchronize_calls reviewer cluster c with h | h
    · rw [h] at hname
      cases hname
    · rw [h] at hname
      exact foldl_reviewResource_call_cause reviewer cluster.policyChanged cluster.namespaces
        c.records hnodup name hname

/-- Witness of C3 on `TestSyncNamespace`: the first pass reviews the three
namespaces and every review returns a result; a second pass with nothing
changed reviews none, even with the reviewer of the second phase. -/
theorem second_synchronize_reviews_only_failed_witness :
    (synchronize reviewer1.Review testCluster1 testCache0).2 = ["foo", "bar", "car"] ∧
      (synchronize reviewer2.Review { testCluster1 with policyChanged := false }
        (synchronize reviewer1.Review testCluster1 testCache0).1).2 = [] :=
  ⟨by decide,
    (second_synchronize_reviews_only_failed reviewer1.Review reviewer2.Review testCluster1
      testCache0 (by decide)).2.1
      (fun name hname => exists_ok_of_isOk _
        ((by decide : ∀ name ∈ (synchronize reviewer1.Review testCluster1 testCache0).2,
            (reviewer1.Review name).isOk = true) name hname))⟩

end KubeProjects
